import Mathlib

/-!
Verification of the Tari Universe MCP (Model Context Protocol) server
mediation layer: the capability registry (tool and resource catalogs), the
permission gate, the audit log, and the request dispatcher, together with
the MCP settings UI logic (host allow-list editing and port input).

The server core (`src-tauri/src/mcp/server.rs`, `security.rs`, the tool and
resource modules) is described by the repository documentation and the
design spec; its dispatch pipeline is modelled here from those documents.
The settings UI logic is translated directly from
`MCPConnectionSettings.tsx`.
-/

/-- Modelled from the spec: the MCP security configuration `MCPConfig`
declared (with its documented default values) in the repository
documentation; the `security.rs` source itself is not in the tree. -/
structure MCPConfig where
  enabled : Bool
  allow_wallet_send : Bool
  allowed_host_addresses : List String
  port : Nat
  audit_logging : Bool
deriving DecidableEq, Repr

/-- Modelled from the spec: the documented defaults of `MCPConfig`
(enabled: false, allow_wallet_send: false, hosts 127.0.0.1 and ::1,
port 0, audit_logging: true). -/
def MCPConfig.default : MCPConfig :=
  ⟨false, false, ["127.0.0.1", "::1"], 0, true⟩

/-- Fallback host list used by `MCPConnectionSettings.tsx`:
`allowedHosts || ['127.0.0.1', '::1']`. -/
def uiDefaultHostList : List String := ["127.0.0.1", "::1"]

/-- Argument types appearing in tool schemas. -/
inductive ArgType
  | str
  | num
  | bool
deriving DecidableEq, Repr

/-- A typed argument value carried in a tool-call request. -/
inductive ArgValue
  | str (s : String)
  | num (n : Int)
  | bool (b : Bool)
deriving DecidableEq, Repr

/-- The type tag of an argument value. -/
def argTypeOf : ArgValue → ArgType
  | .str _ => .str
  | .num _ => .num
  | .bool _ => .bool

/-- One entry of a tool's declared argument schema: name, type,
required-ness, and (optionally) an allowed-value set for strings or an
allowed range for numbers. -/
structure ArgSpec where
  name : String
  ty : ArgType
  required : Bool
  allowedValues : List String := []
  minVal : Option Int := none
  maxVal : Option Int := none
deriving DecidableEq, Repr

/-- A tool catalog entry: unique name, optional required capability, and
declared argument schema. -/
structure ToolEntry where
  name : String
  requiredCapability : Option String
  schema : List ArgSpec
deriving DecidableEq, Repr

/-- Modelled from the spec: mining tools with no parameters. -/
def start_cpu_mining : ToolEntry := ⟨"start_cpu_mining", none, []⟩

def stop_cpu_mining : ToolEntry := ⟨"stop_cpu_mining", none, []⟩

def start_gpu_mining : ToolEntry := ⟨"start_gpu_mining", none, []⟩

def stop_gpu_mining : ToolEntry := ⟨"stop_gpu_mining", none, []⟩

/-- Modelled from the spec: `set_mining_mode`, whose `mode` argument is
documented with the values "Eco", "Ludicrous", "Custom" and an optional
numeric `custom_cpu_usage` override. The allowed range 0–100 of
`custom_cpu_usage` is modelled from the spec scenario in which 150
exceeds the declared allowed range; the documentation marks the argument
only as an optional number. -/
def set_mining_mode : ToolEntry :=
  ⟨"set_mining_mode", none,
    [{ name := "mode", ty := .str, required := true,
       allowedValues := ["Eco", "Ludicrous", "Custom"] },
     { name := "custom_cpu_usage", ty := .num, required := false,
       minVal := some 0, maxVal := some 100 }]⟩

def get_mining_config : ToolEntry := ⟨"get_mining_config", none, []⟩

def set_cpu_mining_enabled : ToolEntry :=
  ⟨"set_cpu_mining_enabled", none,
    [{ name := "enabled", ty := .bool, required := true }]⟩

def set_gpu_mining_enabled : ToolEntry :=
  ⟨"set_gpu_mining_enabled", none,
    [{ name := "enabled", ty := .bool, required := true }]⟩

def get_app_settings : ToolEntry := ⟨"get_app_settings", none, []⟩

/-- Modelled from the spec: `validate_address` takes an address and a
sending method ("interactive" or "one_sided") and requires no
capability. -/
def validate_address : ToolEntry :=
  ⟨"validate_address", none,
    [{ name := "address", ty := .str, required := true },
     { name := "sending_method", ty := .str, required := true,
       allowedValues := ["interactive", "one_sided"] }]⟩

/-- Modelled from the spec: `send_tari` takes amount, destination and an
optional payment id, and requires the `allow_wallet_send` capability. -/
def send_tari : ToolEntry :=
  ⟨"send_tari", some "allow_wallet_send",
    [{ name := "amount", ty := .str, required := true },
     { name := "destination", ty := .str, required := true },
     { name := "payment_id", ty := .str, required := false }]⟩

/-- Modelled from the spec: the fixed tool catalog, built once at
startup and immutable thereafter. -/
def toolCatalog : List ToolEntry :=
  [start_cpu_mining, stop_cpu_mining, start_gpu_mining, stop_gpu_mining,
   set_mining_mode, get_mining_config, set_cpu_mining_enabled,
   set_gpu_mining_enabled, get_app_settings, validate_address, send_tari]

/-- Registry lookup: find a tool catalog entry by name. -/
def lookupTool (name : String) : Option ToolEntry :=
  toolCatalog.find? (fun e => e.name = name)

/-- Modelled from the spec: the fixed read-only resource catalog. -/
def resourceNames : List String :=
  ["wallet_balance", "wallet_address", "transaction_history",
   "coinbase_transactions", "mining_status", "mining_config",
   "hardware_info", "p2pool_stats", "app_state", "node_status",
   "network_stats", "external_dependencies"]

/-- The permission gate's decision. -/
inductive GateDecision
  | allowed
  | denied (reason : String)
deriving DecidableEq, Repr

/-- Modelled from the spec: the permission gate. Disabled server denies
every request; an entry with no required capability is allowed; the
wallet-send capability must be granted in configuration. -/
def authorize (requiredCapability : Option String) (cfg : MCPConfig) :
    GateDecision :=
  if cfg.enabled = false then .denied "server disabled"
  else
    match requiredCapability with
    | none => .allowed
    | some cap =>
      if cap = "allow_wallet_send" ∧ cfg.allow_wallet_send = false then
        .denied "capability not granted"
      else .allowed

/-- Outcome recorded in an audit entry. -/
inductive Outcome
  | success
  | failure (reason : String)
deriving DecidableEq, Repr

/-- An audit log entry: operation name and outcome. -/
structure AuditRecord where
  operation : String
  outcome : Outcome
deriving DecidableEq, Repr

/-- The dispatcher's error taxonomy (protocol errors are handled before
dispatch and are not modelled here). -/
inductive McpError
  | notFound (msg : String)
  | forbidden (reason : String)
  | validation (msg : String)
  | handlerError (msg : String)
deriving DecidableEq, Repr

/-- External collaborator handlers (wallet and mining managers), passed
in so that spy handlers can observe invocations. -/
structure Handlers where
  tool : String → List (String × ArgValue) → Except String String
  resource : String → Except String String

/-- The observable effect of dispatching one request: the response, the
audit records appended, the collaborator handler invocations made, and
the number of permission-gate evaluations performed. -/
structure DispatchResult where
  response : Except McpError String
  audit : List AuditRecord
  handlerCalls : List (String × List (String × ArgValue))
  gateChecks : Nat
deriving Repr

/-- Append one audit record when audit logging is enabled, none
otherwise. -/
def auditIf (cfg : MCPConfig) (r : AuditRecord) : List AuditRecord :=
  if cfg.audit_logging then [r] else []

/-- Look up an argument by name in a request's argument mapping. -/
def lookupArg (args : List (String × ArgValue)) (name : String) :
    Option ArgValue :=
  (args.find? (fun p => p.1 = name)).map (fun p => p.2)

/-- Check one schema entry against the supplied arguments, returning the
first violation if any. -/
def checkSpec (args : List (String × ArgValue)) (s : ArgSpec) :
    Option String :=
  match lookupArg args s.name with
  | none =>
    if s.required then some ("missing required argument: " ++ s.name)
    else none
  | some v =>
    if argTypeOf v ≠ s.ty then
      some ("invalid type for argument: " ++ s.name)
    else
      match v with
      | .str str =>
        if s.allowedValues ≠ [] ∧ str ∉ s.allowedValues then
          some ("invalid value for argument: " ++ s.name)
        else none
      | .num n =>
        if (match s.minVal with | some m => decide (n < m) | none => false) ||
           (match s.maxVal with | some m => decide (m < n) | none => false) then
          some ("argument out of allowed range: " ++ s.name)
        else none
      | .bool _ => none

/-- Validate a request's arguments against a declared schema, returning
the first violation if any. -/
def validateArgs (schema : List ArgSpec) (args : List (String × ArgValue)) :
    Option String :=
  match schema with
  | [] => none
  | s :: rest =>
    match checkSpec args s with
    | some e => some e
    | none => validateArgs rest args

/-- Modelled from the spec: dispatch one tool call. Resolution, then
argument validation, then the permission gate, then handler invocation;
every exit appends one audit record when audit logging is enabled. -/
def callTool (cfg : MCPConfig) (h : Handlers) (name : String)
    (args : List (String × ArgValue)) : DispatchResult :=
  match lookupTool name with
  | none =>
    ⟨.error (.notFound "unknown tool"),
     auditIf cfg ⟨name, .failure "unknown tool"⟩, [], 0⟩
  | some entry =>
    match validateArgs entry.schema args with
    | some msg =>
      ⟨.error (.validation msg), auditIf cfg ⟨name, .failure msg⟩, [], 0⟩
    | none =>
      match authorize entry.requiredCapability cfg with
      | .denied reason =>
        ⟨.error (.forbidden reason),
         auditIf cfg ⟨name, .failure reason⟩, [], 1⟩
      | .allowed =>
        match h.tool name args with
        | .ok out =>
          ⟨.ok out, auditIf cfg ⟨name, .success⟩, [(name, args)], 1⟩
        | .error e =>
          ⟨.error (.handlerError e),
           auditIf cfg ⟨name, .failure e⟩, [(name, args)], 1⟩

/-- Modelled from the spec: dispatch one resource read. Resources
require no capability beyond base enablement. -/
def readResource (cfg : MCPConfig) (h : Handlers) (name : String) :
    DispatchResult :=
  if name ∈ resourceNames then
    match authorize none cfg with
    | .denied reason =>
      ⟨.error (.forbidden reason),
       auditIf cfg ⟨name, .failure reason⟩, [], 1⟩
    | .allowed =>
      match h.resource name with
      | .ok out => ⟨.ok out, auditIf cfg ⟨name, .success⟩, [(name, [])], 1⟩
      | .error e =>
        ⟨.error (.handlerError e),
         auditIf cfg ⟨name, .failure e⟩, [(name, [])], 1⟩
  else
    ⟨.error (.notFound "unknown resource"),
     auditIf cfg ⟨name, .failure "unknown resource"⟩, [], 0⟩

/-- A dispatched request: a tool call or a resource read. -/
inductive Request
  | toolCall (name : String) (args : List (String × ArgValue))
  | resourceRead (name : String)

/-- Dispatch one request. -/
def dispatchReq (cfg : MCPConfig) (h : Handlers) : Request → DispatchResult
  | .toolCall name args => callTool cfg h name args
  | .resourceRead name => readResource cfg h name

/-- Modelled from the spec: process the requests of one connection in
the order received, accumulating the audit log (in dispatch order) and
the responses. -/
def processConn (cfg : MCPConfig) (h : Handlers) :
    List Request → List AuditRecord × List (Except McpError String)
  | [] => ([], [])
  | r :: rs =>
    let d := dispatchReq cfg h r
    let rest := processConn cfg h rs
    (d.audit ++ rest.1, d.response :: rest.2)

/-! ### Settings UI logic, from `MCPConnectionSettings.tsx` -/

/-- A user action on the allowed-host list in the connection settings
UI: typing a host and pressing Add, or pressing Remove next to a host. -/
inductive HostOp
  | add (s : String)
  | remove (s : String)

/-- One UI step on the host list, from `MCPConnectionSettings.tsx`.
Add runs `handleAddHost` and is disabled unless the trimmed input is
non-empty and not already present; Remove runs `handleRemoveHost`
(`hostList.filter(h => h !== host)`) and is disabled when
`hostList.length <= 1`. -/
def applyHostOp (hostList : List String) : HostOp → List String
  | .add s =>
    if s.trim ≠ "" ∧ s.trim ∉ hostList then hostList ++ [s.trim]
    else hostList
  | .remove host =>
    if hostList.length ≤ 1 then hostList
    else hostList.filter (fun h => h ≠ host)

/-- Longest leading run of decimal digits, as JavaScript
`parseInt(value, 10)` consumes it. -/
def takeDigits : List Char → List Char
  | [] => []
  | c :: cs => if c.isDigit then c :: takeDigits cs else []

/-- Numeric value of a digit string. -/
def digitsToNat (ds : List Char) : Nat :=
  ds.foldl (fun acc c => acc * 10 + (c.toNat - 48)) 0

/-- JavaScript `parseInt(value, 10)`: skip leading whitespace, read an
optional sign, then the longest run of decimal digits; `none` models
`NaN` (no digits found). Trailing garbage is ignored, as in JS. -/
def jsParseInt10 (s : String) : Option Int :=
  let cs := s.data.dropWhile (fun c => c.isWhitespace)
  let signed : Int × List Char :=
    match cs with
    | '-' :: r => (-1, r)
    | '+' :: r => (1, r)
    | r => (1, r)
  let ds := takeDigits signed.2
  if ds = [] then none else some (signed.1 * digitsToNat ds)

/-- `handlePortChange` from `MCPConnectionSettings.tsx`: always update
the local display text; parse the input with `parseInt(value, 10)` and
store it only when it is a number within 0–65535. Returns the new
(display text, stored port). -/
def handlePortChange (value : String) (storedPort : Nat) : String × Nat :=
  match jsParseInt10 value with
  | some p =>
    if 0 ≤ p ∧ p ≤ 65535 then (value, p.toNat) else (value, storedPort)
  | none => (value, storedPort)

/-! ### Concrete fixtures used by witnesses and counterexamples -/

/-- A disabled configuration with audit logging on. -/
def cfgDisabled : MCPConfig := ⟨false, false, ["127.0.0.1", "::1"], 0, true⟩

/-- An enabled configuration that does not grant wallet send, with audit
logging on. -/
def cfgEnabled : MCPConfig := ⟨true, false, ["127.0.0.1", "::1"], 0, true⟩

/-- Spy collaborators that always succeed; dispatch results record the
invocations made against them. -/
def okHandlers : Handlers := ⟨fun _ _ => .ok "ok", fun _ => .ok "ok"⟩

/-- The argument mapping of the spec's wallet-send scenario. -/
def sendTariArgs : List (String × ArgValue) :=
  [("amount", .str "100"), ("destination", .str "abc")]

/-! ### Helper lemmas -/

/-- The audit appender emits one record when logging is on, none
otherwise. -/
theorem auditIf_length (cfg : MCPConfig) (r : AuditRecord) :
    (auditIf cfg r).length = if cfg.audit_logging then 1 else 0 := by
  unfold auditIf
  split
  · rfl
  · rfl

/-- Records appended with a failure outcome are never success
records. -/
theorem auditIf_failure_not_success (cfg : MCPConfig) (op reason : String) :
    ∀ r ∈ auditIf cfg ⟨op, .failure reason⟩, r.outcome ≠ Outcome.success := by
  unfold auditIf
  split
  · intro r hr
    simp only [List.mem_singleton] at hr
    subst hr
    simp
  · intro r hr
    simp at hr

/-- A disabled server makes the gate deny every request. -/
theorem authorize_disabled (cap : Option String) (cfg : MCPConfig)
    (h : cfg.enabled = false) :
    authorize cap cfg = .denied "server disabled" := by
  unfold authorize
  rw [h]
  simp

/-- Every dispatch appends one audit record exactly when logging is
enabled. -/
theorem dispatch_audit_length (cfg : MCPConfig) (h : Handlers)
    (req : Request) :
    ((dispatchReq cfg h req).audit).length =
      if cfg.audit_logging then 1 else 0 := by
  cases req with
  | toolCall name args =>
    show ((callTool cfg h name args).audit).length = _
    unfold callTool
    repeat' split
    all_goals simp_all [auditIf]
  | resourceRead name =>
    show ((readResource cfg h name).audit).length = _
    unfold readResource
    repeat' split
    all_goals simp_all [auditIf]

/-- With audit logging on, every dispatch appends exactly one record. -/
theorem dispatch_audit_singleton (cfg : MCPConfig) (h : Handlers)
    (req : Request) (hlog : cfg.audit_logging = true) :
    ∃ r, (dispatchReq cfg h req).audit = [r] := by
  have hlen := dispatch_audit_length cfg h req
  rw [hlog] at hlen
  simp only [if_true] at hlen
  exact List.length_eq_one.mp hlen

/-- Unfolding of the dispatcher once the catalog entry has been
resolved. -/
theorem callTool_eq_found (cfg : MCPConfig) (h : Handlers) (name : String)
    (entry : ToolEntry) (args : List (String × ArgValue))
    (hl : lookupTool name = some entry) :
    callTool cfg h name args =
      match validateArgs entry.schema args with
      | some msg =>
        ⟨.error (.validation msg), auditIf cfg ⟨name, .failure msg⟩, [], 0⟩
      | none =>
        match authorize entry.requiredCapability cfg with
        | .denied reason =>
          ⟨.error (.forbidden reason),
           auditIf cfg ⟨name, .failure reason⟩, [], 1⟩
        | .allowed =>
          match h.tool name args with
          | .ok out =>
            ⟨.ok out, auditIf cfg ⟨name, .success⟩, [(name, args)], 1⟩
          | .error e =>
            ⟨.error (.handlerError e),
             auditIf cfg ⟨name, .failure e⟩, [(name, args)], 1⟩ := by
  unfold callTool
  rw [hl]

/-! ### Claim theorems -/

/-- Claim C6: the SecurityConfig constructed at startup, before any
stored configuration is applied, has exactly the defaults
enabled = false, allow-wallet-send = false,
allowed-host-addresses = ["127.0.0.1", "::1"], bound port 0, and
audit-logging = true; the settings UI uses the same fallback host
list. -/
theorem default_config_values :
    MCPConfig.default.enabled = false ∧
    MCPConfig.default.allow_wallet_send = false ∧
    MCPConfig.default.allowed_host_addresses = ["127.0.0.1", "::1"] ∧
    MCPConfig.default.port = 0 ∧
    MCPConfig.default.audit_logging = true ∧
    MCPConfig.default.allowed_host_addresses = uiDefaultHostList :=
  ⟨rfl, rfl, rfl, rfl, rfl, rfl⟩

/-- Claim C3: every dispatched request — tool call or resource read,
whatever its outcome — appends exactly one audit record when audit
logging is enabled and exactly zero when it is disabled. -/
theorem audit_exactly_one_record (cfg : MCPConfig) (h : Handlers)
    (req : Request) :
    ((dispatchReq cfg h req).audit).length =
      if cfg.audit_logging then 1 else 0 :=
  dispatch_audit_length cfg h req

/-- Claim C2: when the configuration has enabled = false, the
permission gate denies every request with reason "server disabled", and
dispatching any tool call or resource read invokes no collaborator
handler. -/
theorem disabled_server_denies_all (cfg : MCPConfig) (cap : Option String)
    (h : Handlers) (tname : String) (args : List (String × ArgValue))
    (rname : String) (hdis : cfg.enabled = false) :
    authorize cap cfg = .denied "server disabled" ∧
    (callTool cfg h tname args).handlerCalls = [] ∧
    (readResource cfg h rname).handlerCalls = [] := by
  refine ⟨authorize_disabled cap cfg hdis, ?_, ?_⟩
  · unfold callTool
    split
    · rfl
    · split
      · rfl
      · rw [authorize_disabled _ _ hdis]
  · unfold readResource
    split
    · rw [authorize_disabled _ _ hdis]
    · rfl

/-- Witness for C2 at a concrete disabled configuration, the wallet-send
capability, the `start_cpu_mining` tool and the `mining_status`
resource. -/
theorem disabled_server_denies_all_witness :
    authorize (some "allow_wallet_send") cfgDisabled =
      .denied "server disabled" ∧
    (callTool cfgDisabled okHandlers "start_cpu_mining" []).handlerCalls
      = [] ∧
    (readResource cfgDisabled okHandlers "mining_status").handlerCalls
      = [] :=
  disabled_server_denies_all cfgDisabled (some "allow_wallet_send")
    okHandlers "start_cpu_mining" [] "mining_status" rfl

/-- Claim C4: a tool call whose target name is absent from the tool
catalog yields a not-found error, evaluates the permission gate zero
times, invokes no handler, and — when audit logging is enabled —
appends exactly the one failure record with reason "unknown tool". -/
theorem unknown_tool_not_found (cfg : MCPConfig) (h : Handlers)
    (name : String) (args : List (String × ArgValue))
    (hn : lookupTool name = none) :
    (callTool cfg h name args).response =
      .error (.notFound "unknown tool") ∧
    (callTool cfg h name args).gateChecks = 0 ∧
    (callTool cfg h name args).handlerCalls = [] ∧
    (cfg.audit_logging = true →
      (callTool cfg h name args).audit =
        [⟨name, .failure "unknown tool"⟩]) := by
  unfold callTool
  rw [hn]
  refine ⟨rfl, rfl, rfl, fun hlog => ?_⟩
  simp [auditIf, hlog]

/-- Witness for C4 at the concrete unknown tool name "foo". -/
theorem unknown_tool_not_found_witness :
    (callTool cfgEnabled okHandlers "foo" []).response =
      .error (.notFound "unknown tool") ∧
    (callTool cfgEnabled okHandlers "foo" []).gateChecks = 0 ∧
    (callTool cfgEnabled okHandlers "foo" []).handlerCalls = [] ∧
    (cfgEnabled.audit_logging = true →
      (callTool cfgEnabled okHandlers "foo" []).audit =
        [⟨"foo", .failure "unknown tool"⟩]) :=
  unknown_tool_not_found cfgEnabled okHandlers "foo" [] (by decide)

/-- Counterexample for C1 as stated: with the server disabled and
wallet send not granted, a valid `send_tari` call is refused with reason
"server disabled", not "capability not granted". -/
theorem send_tari_reason_differs_when_disabled :
    (callTool cfgDisabled okHandlers "send_tari" sendTariArgs).response =
      .error (.forbidden "server disabled") ∧
    ("server disabled" : String) ≠ "capability not granted" := by
  exact ⟨rfl, by decide⟩

/-- Claim C1 (amended): whenever the configuration does not grant
wallet send, a `send_tari` call never invokes a collaborator handler,
appends exactly one audit record when logging is enabled and none
otherwise, and every appended record is a failure; when moreover the
server is enabled and the arguments pass the declared schema, the
response is Forbidden("capability not granted") and the appended record
carries that reason. -/
theorem send_tari_denied_without_capability (cfg : MCPConfig)
    (h : Handlers) (args : List (String × ArgValue))
    (hcap : cfg.allow_wallet_send = false) :
    (callTool cfg h "send_tari" args).handlerCalls = [] ∧
    ((callTool cfg h "send_tari" args).audit).length =
      (if cfg.audit_logging then 1 else 0) ∧
    (∀ r ∈ (callTool cfg h "send_tari" args).audit,
      r.outcome ≠ Outcome.success) ∧
    (cfg.enabled = true → validateArgs send_tari.schema args = none →
      (callTool cfg h "send_tari" args).response =
        .error (.forbidden "capability not granted")) ∧
    (cfg.enabled = true → validateArgs send_tari.schema args = none →
      cfg.audit_logging = true →
      (callTool cfg h "send_tari" args).audit =
        [⟨"send_tari", .failure "capability not granted"⟩]) := by
  have hl : lookupTool "send_tari" = some send_tari := by rfl
  rw [callTool_eq_found cfg h "send_tari" send_tari args hl]
  cases hv : validateArgs send_tari.schema args with
  | some msg =>
    refine ⟨rfl, auditIf_length _ _, auditIf_failure_not_success _ _ _,
      fun _ hnone => ?_, fun _ hnone _ => ?_⟩
    · exact Option.noConfusion hnone
    · exact Option.noConfusion hnone
  | none =>
    cases he : cfg.enabled with
    | false =>
      rw [authorize_disabled _ _ he]
      refine ⟨rfl, auditIf_length _ _, auditIf_failure_not_success _ _ _,
        fun htrue _ => ?_, fun htrue _ _ => ?_⟩
      · exact Bool.noConfusion htrue
      · exact Bool.noConfusion htrue
    | true =>
      have ha : authorize send_tari.requiredCapability cfg =
          .denied "capability not granted" := by
        unfold authorize
        rw [he]
        simp [hcap, send_tari]
      rw [ha]
      refine ⟨rfl, auditIf_length _ _, auditIf_failure_not_success _ _ _,
        fun _ _ => rfl, fun _ _ hlog => ?_⟩
      simp [auditIf, hlog]

/-- Witness for C1 (amended) at the enabled configuration without
wallet send and the spec's concrete arguments. -/
theorem send_tari_denied_without_capability_witness :
    (callTool cfgEnabled okHandlers "send_tari" sendTariArgs).handlerCalls
      = [] ∧
    ((callTool cfgEnabled okHandlers "send_tari" sendTariArgs).audit).length
      = (if cfgEnabled.audit_logging then 1 else 0) ∧
    (∀ r ∈ (callTool cfgEnabled okHandlers "send_tari" sendTariArgs).audit,
      r.outcome ≠ Outcome.success) ∧
    (cfgEnabled.enabled = true →
      validateArgs send_tari.schema sendTariArgs = none →
      (callTool cfgEnabled okHandlers "send_tari" sendTariArgs).response =
        .error (.forbidden "capability not granted")) ∧
    (cfgEnabled.enabled = true →
      validateArgs send_tari.schema sendTariArgs = none →
      cfgEnabled.audit_logging = true →
      (callTool cfgEnabled okHandlers "send_tari" sendTariArgs).audit =
        [⟨"send_tari", .failure "capability not granted"⟩]) :=
  send_tari_denied_without_capability cfgEnabled okHandlers sendTariArgs rfl

/-- Counterexample for C5 as stated: the declared allowed-value set of
the `mode` argument of `set_mining_mode` is ["Eco", "Ludicrous",
"Custom"]; it contains "Ludicrous" and no spelling of "aggressive", so
it is not the claimed set {eco, aggressive, custom}. -/
theorem set_mining_mode_values_differ :
    ((set_mining_mode.schema.find? (fun s => s.name = "mode")).map
        (fun s => s.allowedValues)) =
      some ["Eco", "Ludicrous", "Custom"] ∧
    "Ludicrous" ∈ (["Eco", "Ludicrous", "Custom"] : List String) ∧
    "aggressive" ∉ (["Eco", "Ludicrous", "Custom"] : List String) ∧
    "Aggressive" ∉ (["Eco", "Ludicrous", "Custom"] : List String) := by
  exact ⟨rfl, by decide, by decide, by decide⟩

/-- Claim C5 (amended): the `mode` argument of `set_mining_mode` has the
declared allowed-value set exactly ["Eco", "Ludicrous", "Custom"], and
any `set_mining_mode` call whose arguments violate the declared schema
(for example a `custom_cpu_usage` of 150 exceeding the declared allowed
range) yields a validation error with the handler never invoked and the
permission gate never evaluated. -/
theorem set_mining_mode_schema_enforced (cfg : MCPConfig) (h : Handlers)
    (args : List (String × ArgValue)) (msg : String)
    (hv : validateArgs set_mining_mode.schema args = some msg) :
    ((set_mining_mode.schema.find? (fun s => s.name = "mode")).map
        (fun s => s.allowedValues)) =
      some ["Eco", "Ludicrous", "Custom"] ∧
    (callTool cfg h "set_mining_mode" args).response =
      .error (.validation msg) ∧
    (callTool cfg h "set_mining_mode" args).handlerCalls = [] ∧
    (callTool cfg h "set_mining_mode" args).gateChecks = 0 := by
  rw [callTool_eq_found cfg h "set_mining_mode" set_mining_mode args (by rfl)]
  rw [hv]
  exact ⟨rfl, rfl, rfl, rfl⟩

/-- Witness for C5 (amended) at the spec's Scenario 5 call, whose
`custom_cpu_usage` of 150 exceeds the declared 0–100 range. -/
theorem set_mining_mode_schema_enforced_witness :
    ((set_mining_mode.schema.find? (fun s => s.name = "mode")).map
        (fun s => s.allowedValues)) =
      some ["Eco", "Ludicrous", "Custom"] ∧
    (callTool cfgEnabled okHandlers "set_mining_mode"
        [("mode", .str "Custom"), ("custom_cpu_usage", .num 150)]).response
      = .error (.validation "argument out of allowed range: custom_cpu_usage") ∧
    (callTool cfgEnabled okHandlers "set_mining_mode"
        [("mode", .str "Custom"), ("custom_cpu_usage", .num 150)]).handlerCalls
      = [] ∧
    (callTool cfgEnabled okHandlers "set_mining_mode"
        [("mode", .str "Custom"), ("custom_cpu_usage", .num 150)]).gateChecks
      = 0 :=
  set_mining_mode_schema_enforced cfgEnabled okHandlers
    [("mode", .str "Custom"), ("custom_cpu_usage", .num 150)]
    "argument out of allowed range: custom_cpu_usage" rfl

/-- Claim C7: two requests A then B on one connection are dispatched in
order, and when audit logging is enabled A's audit record precedes B's
in the accumulated log. -/
theorem audit_order_two_requests (cfg : MCPConfig) (h : Handlers)
    (A B : Request) (hlog : cfg.audit_logging = true) :
    ∃ ra rb, (processConn cfg h [A, B]).1 = [ra, rb] ∧
      (dispatchReq cfg h A).audit = [ra] ∧
      (dispatchReq cfg h B).audit = [rb] := by
  obtain ⟨ra, ha⟩ := dispatch_audit_singleton cfg h A hlog
  obtain ⟨rb, hb⟩ := dispatch_audit_singleton cfg h B hlog
  exact ⟨ra, rb, by simp [processConn, ha, hb], ha, hb⟩

/-- Witness for C7 at a concrete connection issuing a tool call then a
resource read against the enabled configuration. -/
theorem audit_order_two_requests_witness :
    ∃ ra rb,
      (processConn cfgEnabled okHandlers
        [Request.toolCall "start_cpu_mining" [],
         Request.resourceRead "mining_status"]).1 = [ra, rb] ∧
      (dispatchReq cfgEnabled okHandlers
        (Request.toolCall "start_cpu_mining" [])).audit = [ra] ∧
      (dispatchReq cfgEnabled okHandlers
        (Request.resourceRead "mining_status")).audit = [rb] :=
  audit_order_two_requests cfgEnabled okHandlers
    (Request.toolCall "start_cpu_mining" [])
    (Request.resourceRead "mining_status") rfl

/-- Claim C8: `validate_address` is deterministic and idempotent — two
consecutive calls with the same arguments against the same environment
(configuration and collaborators) produce identical responses. -/
theorem validate_address_idempotent (cfg : MCPConfig) (h : Handlers)
    (args : List (String × ArgValue)) :
    (processConn cfg h [Request.toolCall "validate_address" args,
        Request.toolCall "validate_address" args]).2
      = [(callTool cfg h "validate_address" args).response,
         (callTool cfg h "validate_address" args).response] := by
  simp [processConn, dispatchReq]

/-- Counterexample for C9 as stated: from the non-empty starting list
["a", "a"] (which contains a duplicate), one Remove action on "a"
empties the list, because `handleRemoveHost` filters out every
occurrence of the host. -/
theorem host_list_emptied_with_duplicates :
    (["a", "a"] : List String) ≠ [] ∧
    List.foldl applyHostOp ["a", "a"] [HostOp.remove "a"] = [] := by
  exact ⟨by decide, rfl⟩

/-- Filtering one host out of a duplicate-free list of at least two
entries leaves the list non-empty. -/
theorem filter_ne_host_ne_nil (l : List String) (host : String)
    (hnd : l.Nodup) (hlen : 1 < l.length) :
    l.filter (fun h => h ≠ host) ≠ [] := by
  match l with
  | [] => simp at hlen
  | [a] => simp at hlen
  | a :: b :: r =>
    have hab : a ≠ b := by
      intro he
      apply (List.nodup_cons.mp hnd).1
      rw [he]
      exact List.mem_cons_self b r
    by_cases ha : a = host
    · have hb : b ≠ host := fun hbh => hab (by rw [ha, hbh])
      intro hemp
      have hmem : b ∈ (a :: b :: r).filter (fun h => h ≠ host) := by
        apply List.mem_filter.mpr
        exact ⟨by simp, by simpa using hb⟩
      rw [hemp] at hmem
      simp at hmem
    · intro hemp
      have hmem : a ∈ (a :: b :: r).filter (fun h => h ≠ host) := by
        apply List.mem_filter.mpr
        exact ⟨by simp, by simpa using ha⟩
      rw [hemp] at hmem
      simp at hmem

/-- One UI step on the host list preserves freedom from duplicates and
non-emptiness: Add refuses hosts already present, and Remove is
disabled at one entry or fewer. -/
theorem applyHostOp_preserves (l : List String) (op : HostOp)
    (hnd : l.Nodup) (hne : l ≠ []) :
    (applyHostOp l op).Nodup ∧ applyHostOp l op ≠ [] := by
  cases op with
  | add s =>
    simp only [applyHostOp]
    split
    · next hcond =>
      constructor
      · exact List.Nodup.append hnd (List.nodup_singleton _)
          (fun a hal hasl => hcond.2 ((List.mem_singleton.mp hasl) ▸ hal))
      · simp
    · exact ⟨hnd, hne⟩
  | remove host =>
    simp only [applyHostOp]
    split
    · exact ⟨hnd, hne⟩
    · next hlen =>
      have hlen2 : 1 < l.length := by omega
      exact ⟨hnd.filter _, filter_ne_host_ne_nil l host hnd hlen2⟩

/-- Claim C9 (amended): starting from a non-empty host list with no
duplicate entries — as produced by the defaults and by the Add action,
which refuses hosts already present — every sequence of UI Add and
Remove actions leaves the allowed-host list non-empty (and free of
duplicates); the Remove action is a no-op while the list has one entry
or fewer. -/
theorem host_list_stays_nonempty (ops : List HostOp) (l : List String)
    (hnd : l.Nodup) (hne : l ≠ []) :
    List.foldl applyHostOp l ops ≠ [] ∧
    (List.foldl applyHostOp l ops).Nodup := by
  induction ops generalizing l with
  | nil => exact ⟨hne, hnd⟩
  | cons op rest ih =>
    have h1 := applyHostOp_preserves l op hnd hne
    exact ih (applyHostOp l op) h1.1 h1.2

/-- Witness for C9 (amended): from the default host list, removing both
hosts in turn still leaves a non-empty list (the second Remove is
disabled). -/
theorem host_list_stays_nonempty_witness :
    List.foldl applyHostOp ["127.0.0.1", "::1"]
      [HostOp.remove "::1", HostOp.remove "127.0.0.1"] ≠ [] ∧
    (List.foldl applyHostOp ["127.0.0.1", "::1"]
      [HostOp.remove "::1", HostOp.remove "127.0.0.1"]).Nodup :=
  host_list_stays_nonempty [HostOp.remove "::1", HostOp.remove "127.0.0.1"]
    ["127.0.0.1", "::1"] (by decide) (by decide)

/-- Claim C10: the port input updates the stored MCP port only with an
integer parsed (as JavaScript `parseInt(value, 10)` parses it) from the
typed string and lying within 0–65535; any other input leaves the
stored port unchanged, and the display text always follows the typed
string. -/
theorem port_update_only_in_range (value : String) (stored : Nat) :
    (handlePortChange value stored).1 = value ∧
    ((∃ p : Int, jsParseInt10 value = some p ∧ 0 ≤ p ∧ p ≤ 65535 ∧
        (handlePortChange value stored).2 = p.toNat ∧ p.toNat ≤ 65535) ∨
      ((handlePortChange value stored).2 = stored ∧
        ¬ ∃ p : Int, jsParseInt10 value = some p ∧ 0 ≤ p ∧ p ≤ 65535)) := by
  unfold handlePortChange
  split
  · next p hp =>
    by_cases hr : 0 ≤ p ∧ p ≤ 65535
    · rw [if_pos hr]
      exact ⟨rfl, .inl ⟨p, hp, hr.1, hr.2, rfl, by omega⟩⟩
    · rw [if_neg hr]
      refine ⟨rfl, .inr ⟨rfl, ?_⟩⟩
      rintro ⟨q, hqs, hq0, hq65⟩
      rw [hp] at hqs
      injection hqs with he
      subst he
      exact hr ⟨hq0, hq65⟩
  · next hp =>
    refine ⟨rfl, .inr ⟨rfl, ?_⟩⟩
    rintro ⟨p, hps, -, -⟩
    rw [hp] at hps
    exact Option.noConfusion hps
